import Mathlib

/-!
Verification of the LegalLens retrieval pipeline (ChromaDB backend,
`legallens-brain/index.js`): the hybrid reranker `optimalReranking`, the
upload path around `optimalChunkText`, the `/ask` empty-context handling,
the `/sessions` aggregation and `/session/:id` deletion.

Numbers are modelled as exact rationals (JS floating point is replaced by
ℚ; all scoring formulas are rational expressions). Strings are modelled
with Lean `String`; the JS-specific behaviours that the code relies on
(`split(/\s+/)`, truthiness tests, `||` defaults, `Promise` objects having
no `length` property, `new RegExp` syntax errors) are modelled explicitly
next to their uses.
-/

namespace LegalLens

/-! ## JS string primitives -/

/-- Whitespace recognised by the JS regex class `\s` as it occurs in the
documents at hand: space, tab, line feed, carriage return, vertical tab,
form feed. (The full class also contains Unicode space separators, which
never appear in the claims' inputs.) -/
def jsIsSpace (c : Char) : Bool :=
  c = ' ' || c = '\t' || c = '\n' || c = '\r' || c = '\x0b' || c = '\x0c'

/-- Model of JS `s.split(/\s+/)`: the string is cut at every maximal run of
whitespace. A leading run contributes a leading empty field, a trailing run
a trailing empty field, and `""` splits to `[""]`. -/
def jsSplitWs (s : String) : List String :=
  let step := fun (st : List String × String × Bool) c =>
    let done := st.1
    let cur := st.2.1
    let afterWs := st.2.2
    if jsIsSpace c then
      if afterWs then st else (done ++ [cur], "", true)
    else (done, cur.push c, false)
  let r := s.data.foldl step ([], "", false)
  r.1 ++ [r.2.1]

/-- Model of JS `s.toLowerCase()` (ASCII-faithful; the pipeline's scoring
only compares strings it lower-cased the same way). -/
def jsToLower (s : String) : String := ⟨s.data.map Char.toLower⟩

/-- `pat` occurs as a contiguous sublist somewhere in the list. -/
def containsSeq (pat : List Char) : List Char → Bool
  | [] => pat.isEmpty
  | c :: rest => pat.isPrefixOf (c :: rest) || containsSeq pat rest

/-- Model of JS `s.includes(sub)`: substring containment. -/
def jsIncludes (s sub : String) : Bool := containsSeq sub.data s.data

/-- Scan for non-overlapping left-to-right occurrences of `pat`: `skip`
counts positions still covered by the previous match (a global JS regex
resumes searching after the end of each match). -/
def countOccGo (pat : List Char) : List Char → Nat → Nat
  | [], _ => 0
  | c :: rest, skip =>
    match skip with
    | n + 1 => countOccGo pat rest n
    | 0 =>
      if pat.isPrefixOf (c :: rest) then 1 + countOccGo pat rest (pat.length - 1)
      else countOccGo pat rest 0

/-- Model of `(text.match(new RegExp(pat, 'g')) || []).length` for a pattern
that the engine admits: the number of non-overlapping left-to-right
occurrences of the literal `pat`. Only called with non-empty patterns
(query words have length at least 3). -/
def countOccurrences (pat text : String) : Nat := countOccGo pat.data text.data 0

/-- The ECMAScript RegExp syntax characters: `^ $ \ . * + ? ( ) [ ] { } |`.
A pattern containing none of them is accepted by `new RegExp` and matched
purely literally. -/
def jsRegexMeta (c : Char) : Bool :=
  c = '\\' || c = '^' || c = '$' || c = '.' || c = '*' || c = '+' || c = '?' ||
  c = '(' || c = ')' || c = '[' || c = ']' || c = '\x7b' || c = '\x7d' || c = '|'

/-- The query tokens on which the behaviour of `new RegExp(word, 'g')` is
exactly modelled here: words free of RegExp syntax characters. ECMAScript
admits every such pattern and matches it as the literal word, so on this
class literal occurrence counting is the precise semantics. -/
def jsRegexpPlain (pat : String) : Bool := pat.data.all (fun c => !(jsRegexMeta c))

/-- The error a thrown JS exception is modelled as. -/
inductive RegexError where
  | syntaxError
deriving DecidableEq, Repr

/-- Model of the JS expression `(chunkText.match(new RegExp(word, 'g')) || []).length`
from `optimalReranking`, exact on the two zones the claims below quantify
over. A word free of RegExp syntax characters is admitted by the
constructor and its global match count is the number of non-overlapping
literal occurrences — exactly `countOccurrences`. A word containing a
syntax character is modelled as the thrown-SyntaxError path; ECMAScript
does reject many such tokens (the claims' `"(((("` is an unterminated
group, `"***"` a quantifier with nothing to repeat, `"[[["` an
unterminated class) but admits others (such as `"a.c"`, with regex rather
than literal semantics). No theorem below asserts anything about queries
containing such admitted-metacharacter tokens: the totality theorem's
hypothesis restricts all tokens to the metacharacter-free zone, and the
counterexample's token is one ECMAScript genuinely rejects. -/
def termTF (chunkText word : String) : Except RegexError Nat :=
  if jsRegexpPlain word then .ok (countOccurrences word chunkText) else .error .syntaxError

/-- `Array.prototype.map` over a callback that may throw: the first thrown
exception propagates, otherwise the list of results is returned. -/
def mapExcept (f : α → Except ε β) (l : List α) : Except ε (List β) :=
  match l with
  | [] => .ok []
  | a :: as =>
    match f a with
    | .error e => .error e
    | .ok b =>
      match mapExcept f as with
      | .error e => .error e
      | .ok bs => .ok (b :: bs)

/-! ## Data model -/

/-- Chunk metadata as written by the upload endpoint (`sessionId`,
`filename`, `chunkIndex` added by the handler; `position`, `length`,
`sentenceCount`, `wordCount` produced by the chunker). -/
structure Metadata where
  sessionId : String
  filename : String
  chunkIndex : Nat
  position : Nat
  length : Nat
  sentenceCount : Nat
  wordCount : Nat
deriving DecidableEq, Repr

/-- A retrieved candidate as assembled by the `/ask` endpoint from a
ChromaDB query result: document text, cosine distance, metadata. -/
structure Candidate where
  text : String
  distance : ℚ
  metadata : Metadata
deriving DecidableEq, Repr

/-- The per-signal scores attached to a reranked chunk. The JS code stores
display strings (`toFixed(2)`) for most of them; the model keeps the raw
rational values, which are what the formulas and the sort use. -/
structure Scores where
  semantic : ℚ
  bm25 : ℚ
  phrase : ℚ
  position : ℚ
  length : ℚ
  combined : ℚ
deriving DecidableEq, Repr

/-- A scored chunk: the candidate's own fields (spread with `...chunk`),
the score breakdown, and the raw `combinedScore` used for sorting. -/
structure Scored where
  text : String
  distance : ℚ
  metadata : Metadata
  scores : Scores
  combinedScore : ℚ
deriving DecidableEq, Repr

/-! ## The reranker (`optimalReranking`) -/

/-- The query tokenisation of `optimalReranking`:
`query.toLowerCase().split(/\s+/).filter(w => w.length > 2)`. -/
def queryWordsOf (query : String) : List String :=
  (jsSplitWs (jsToLower query)).filter (fun w => 2 < w.length)

/-- The bigram list built by the n-gram loop: `words[i] + ' ' + words[i+1]`
for every adjacent pair. -/
def bigrams : List String → List String
  | a :: b :: rest => (a ++ " " ++ b) :: bigrams (b :: rest)
  | _ => []

/-- The trigram list built by the n-gram loop:
`words[i] + ' ' + words[i+1] + ' ' + words[i+2]` for every adjacent triple. -/
def trigrams : List String → List String
  | a :: b :: c :: rest => (a ++ " " ++ b ++ " " ++ c) :: trigrams (b :: c :: rest)
  | _ => []

/-- The BM25-style normalised term frequency of `optimalReranking`:
`(tf * (k1 + 1)) / (tf + k1 * (1 - b + b * (docLength / avgDocLength)))`
with `k1 = 1.5`, `b = 0.75`, `avgDocLength = 300`. -/
def normalizedTF (docLength tf : Nat) : ℚ :=
  let k1 : ℚ := 1.5
  let b : ℚ := 0.75
  let avgDocLength : ℚ := 300
  ((tf : ℚ) * (k1 + 1)) / ((tf : ℚ) + k1 * (1 - b + b * ((docLength : ℚ) / avgDocLength)))

/-- The per-word accumulation `bm25Score += normalizedTF * 2` over the
query words' term frequencies. -/
def bm25OfTFs (docLength : Nat) (tfs : List Nat) : ℚ :=
  tfs.foldl (fun bm25Score tf => bm25Score + normalizedTF docLength tf * 2) 0

/-- The body of the `chunks.map(chunk => ...)` in `optimalReranking`:
computes the five signals and the weighted combination for one candidate.
The term-frequency loop is the only part that can throw (RegExp
construction). JS truthiness: `chunk.distance ? ... : 0` gives 0 for
distance 0, and `chunk.metadata?.position ? ... : 0` gives 0 for position
0; `chunk.metadata?.length || 1000` substitutes 1000 for length 0. -/
def scoreChunk (queryWords queryBigrams queryTrigrams : List String)
    (chunk : Candidate) : Except RegexError Scored :=
  let chunkText := jsToLower chunk.text
  let chunkWords := jsSplitWs chunkText
  let docLength := chunkWords.length
  match mapExcept (termTF chunkText) queryWords with
  | .error e => .error e
  | .ok tfs =>
    let bm25Score := bm25OfTFs docLength tfs
    let phraseScore : ℚ :=
      10 * ((queryTrigrams.filter (fun t => jsIncludes chunkText t)).length : ℚ) +
      5 * ((queryBigrams.filter (fun t => jsIncludes chunkText t)).length : ℚ)
    let semanticScore : ℚ := if chunk.distance = 0 then 0 else (1 - chunk.distance) * 10
    let positionScore : ℚ :=
      if chunk.metadata.position = 0 then 0
      else max 0 (3 - (chunk.metadata.position : ℚ) * 0.1)
    let lengthDiff : ℚ :=
      |((if chunk.metadata.length = 0 then 1000 else chunk.metadata.length : Nat) : ℚ) - 1200|
    let lengthScore : ℚ := max 0 (2 - lengthDiff / 500)
    let combinedScore : ℚ :=
      semanticScore * 0.45 + bm25Score * 0.30 + phraseScore * 0.15 +
      positionScore * 0.05 + lengthScore * 0.05
    .ok { text := chunk.text, distance := chunk.distance, metadata := chunk.metadata,
          scores := { semantic := semanticScore, bm25 := bm25Score, phrase := phraseScore,
                      position := positionScore, length := lengthScore,
                      combined := combinedScore },
          combinedScore := combinedScore }

/-- Scoring of the whole candidate list, in retrieval order. -/
def scoreAll (query : String) (chunks : List Candidate) : Except RegexError (List Scored) :=
  mapExcept
    (scoreChunk (queryWordsOf query) (bigrams (queryWordsOf query))
      (trigrams (queryWordsOf query)))
    chunks

/-- Stable insertion of an element into a list sorted descending by
`combinedScore`: the element is placed before the first strictly smaller
or equal-scored element it dominates, i.e. an earlier element stays ahead
of later equal-scored ones. -/
def insertDesc (x : Scored) : List Scored → List Scored
  | [] => [x]
  | y :: ys =>
    if y.combinedScore ≤ x.combinedScore then x :: y :: ys
    else y :: insertDesc x ys

/-- Model of `scoredChunks.sort((a, b) => b.combinedScore - a.combinedScore)`.
ECMA-262 requires `Array.prototype.sort` to be stable, so the JS call is a
stable descending sort by `combinedScore`; a stable insertion sort computes
the same list. -/
def sortByCombinedDesc : List Scored → List Scored
  | [] => []
  | x :: xs => insertDesc x (sortByCombinedDesc xs)

/-- The hybrid reranker `optimalReranking(query, chunks, topK)` (the JS
default for `topK` is 5): score every candidate, sort stably by combined
score descending, return the first `topK`. A RegExp syntax error thrown
while scoring propagates. -/
def optimalReranking (query : String) (chunks : List Candidate) (topK : Nat) :
    Except RegexError (List Scored) :=
  match scoreAll query chunks with
  | .error e => .error e
  | .ok scoredChunks => .ok ((sortByCombinedDesc scoredChunks).take topK)

/-! ## The chunker wrapper (`optimalChunkText`) and the upload endpoint -/

/-- Chunker-produced metadata (before the upload handler adds session
fields). -/
structure ChunkMeta where
  length : Nat
  position : Nat
  sentenceCount : Nat
  wordCount : Nat
deriving DecidableEq, Repr

/-- A chunk as produced by `optimalChunkText`. -/
structure Chunk where
  text : String
  metadata : ChunkMeta
deriving DecidableEq, Repr

/-- A JS `Promise` wrapping the value an `async` function eventually
resolves to. -/
structure Promise (α : Type) where
  val : α

/-- A JS `Promise` object has no `length` property, so reading `.length`
on one yields `undefined` (modelled `none`). -/
def promiseLength {α : Type} (_ : Promise α) : Option Nat := none

def isSentencePunct (c : Char) : Bool := c = '.' || c = '!' || c = '?'

/-- Model of `(s.match(/[.!?]+/g) || []).length`: the number of maximal
runs of sentence-ending punctuation. -/
def countPunctRuns (s : String) : Nat :=
  (s.data.foldl
    (fun (st : Nat × Bool) c =>
      if isSentencePunct c then (if st.2 then st else (st.1 + 1, true))
      else (st.1, false))
    (0, false)).1

/-- `optimalChunkText(text)`: maps the segments produced by the LangChain
`RecursiveCharacterTextSplitter` (an external library, abstracted as the
`splitter` argument; chunk size 1200, overlap 200) to chunks with
metadata — `position` is the emission index, `length` and `wordCount` are
taken from the trimmed text, `sentenceCount` from the untrimmed text. The
JS function is `async`, so its un-awaited value is a `Promise`. -/
def optimalChunkText (splitter : String → List String) (text : String) :
    Promise (List Chunk) :=
  ⟨(splitter text).enum.map (fun p =>
    { text := p.2.trim,
      metadata := { length := p.2.trim.length, position := p.1,
                    sentenceCount := countPunctRuns p.2,
                    wordCount := (jsSplitWs p.2.trim).length } })⟩

/-- One record handed to `collection.add` by the upload loop. -/
structure UploadRecord where
  id : String
  embedding : List ℚ
  document : String
  metadata : Metadata
deriving DecidableEq, Repr

/-- The JSON body the upload endpoint answers with, plus the records added
to the vector index. `chunkCount` is `Option Nat` because the handler reads
it off a value that may be `undefined`. -/
structure UploadResponse where
  filename : String
  chunkCount : Option Nat
  sessionId : String
  added : List UploadRecord
deriving DecidableEq, Repr

/-- Model of the upload handler after text extraction. The handler runs
`const chunks = optimalChunkText(extractedText)` WITHOUT `await`, so
`chunks` is a Promise object, not a chunk list: `chunks.length` is
`undefined`, the loop guard `i < chunks.length` is false at `i = 0`, the
embed/store loop body never runs, and `collection.add` receives empty
arrays. The response's `chunkCount` field is the `undefined`
`chunks.length`. The embedding client is external (`embed`). -/
def processUpload (splitter : String → List String) (embed : String → List ℚ)
    (sessionId filename text : String) : UploadResponse :=
  let chunks : Promise (List Chunk) := optimalChunkText splitter text
  let chunksLength : Option Nat := promiseLength chunks
  let iterations : Nat := match chunksLength with | none => 0 | some n => n
  let added := ((chunks.val.take iterations).enum).map (fun p =>
    { id := sessionId ++ "_chunk_" ++ toString p.1,
      embedding := embed p.2.text,
      document := p.2.text,
      metadata := { sessionId := sessionId, filename := filename, chunkIndex := p.1,
                    position := p.2.metadata.position, length := p.2.metadata.length,
                    sentenceCount := p.2.metadata.sentenceCount,
                    wordCount := p.2.metadata.wordCount } })
  { filename := filename, chunkCount := chunksLength, sessionId := sessionId,
    added := added }

/-! ## The ask endpoint (post-retrieval part) -/

/-- JS `a || fallbackValue` on strings: the fallback replaces the empty
(falsy) string. -/
def jsOrStr (s fallbackValue : String) : String := if s = "" then fallbackValue else s

/-- One element of the `sources` array in the `/ask` response. -/
structure SourceView where
  text : String
  filename : String
  scores : Scores
deriving DecidableEq, Repr

/-- The `/ask` response: answer text and source provenance. (The
`retrievalInfo` display block is omitted from the model.) -/
structure AskResponse where
  answer : String
  sources : List SourceView
deriving DecidableEq, Repr

/-- The fixed no-context answer of the `/ask` endpoint. -/
def cannotFindAnswer : String :=
  "I cannot find relevant information in the document(s) to answer this question."

/-- The context string assembled from the reranked chunks:
`[Source: <filename>]` tags joined with `\n\n---\n\n`. -/
def assembleContext (rerankedChunks : List Scored) : String :=
  String.intercalate "\n\n---\n\n"
    (rerankedChunks.map (fun c =>
      "[Source: " ++ jsOrStr c.metadata.filename "Unknown" ++ "]\n" ++ c.text))

/-- Model of the `/ask` handler after the ChromaDB query, with the
generation client external (`generate`, taking the question and the
assembled context). If the retrieval returned no chunks the fixed
"cannot find" answer with empty sources is returned; otherwise the
candidates are reranked to the top 5 (`OPTIMAL_RETRIEVAL.afterReranking`)
and the generated answer is returned with the reranked sources. -/
def answerQuestion (generate : String → String → String) (question : String)
    (retrieved : List Candidate) : Except RegexError AskResponse :=
  if retrieved.length = 0 then
    .ok { answer := cannotFindAnswer, sources := [] }
  else
    match optimalReranking question retrieved 5 with
    | .error e => .error e
    | .ok rerankedChunks =>
      .ok { answer := generate question (assembleContext rerankedChunks),
            sources := rerankedChunks.map (fun c =>
              { text := c.text, filename := jsOrStr c.metadata.filename "Unknown",
                scores := c.scores }) }

/-! ## The session registry (`/sessions`, `/session/:id`) -/

/-- One entry of the `/sessions` response. -/
structure Session where
  sessionId : String
  filename : String
  chunkCount : Nat
deriving DecidableEq, Repr

/-- One step of the `/sessions` aggregation loop over all stored
metadatas: a falsy (empty) `sessionId` is skipped; a known `sessionId` has
its count incremented; a new one is appended (JS `Map` preserves insertion
order) with the CURRENT metadata's filename and count 1. -/
def sessionsFold (acc : List Session) (meta : Metadata) : List Session :=
  if meta.sessionId == "" then acc
  else if acc.any (fun s => s.sessionId == meta.sessionId) then
    acc.map (fun s =>
      if s.sessionId == meta.sessionId then
        { s with chunkCount := s.chunkCount + 1 }
      else s)
  else
    acc ++ [{ sessionId := meta.sessionId, filename := meta.filename, chunkCount := 1 }]

/-- The `/sessions` endpoint: group all stored chunk metadatas by
`sessionId`. -/
def listSessions (metadatas : List Metadata) : List Session :=
  metadatas.foldl sessionsFold []

/-- The error channel of the delete endpoint. -/
inductive DeleteError where
  | notFound
deriving DecidableEq, Repr

/-- The `/session/:sessionId` delete endpoint over an index of stored
records: fetch the ids of all records whose metadata `sessionId` matches
(`collection.get` with a `where` filter); if there are any, delete exactly
those ids (`collection.delete`) and report their number, otherwise answer
404 and leave the index untouched. -/
def deleteSession (index : List UploadRecord) (sessionId : String) :
    Except DeleteError (Nat × List UploadRecord) :=
  let results := index.filter (fun r => r.metadata.sessionId == sessionId)
  let ids := results.map (fun r => r.id)
  if 0 < ids.length then
    .ok (ids.length, index.filter (fun r => !(ids.contains r.id)))
  else
    .error .notFound

/-! ## Concrete demonstration values -/

/-- Metadata of a first chunk (position 0) of size exactly 1200. -/
def metaZero : Metadata :=
  { sessionId := "s1", filename := "A.pdf", chunkIndex := 0, position := 0,
    length := 1200, sentenceCount := 1, wordCount := 2 }

/-- Metadata with the same `sessionId` but a different filename. -/
def metaB : Metadata :=
  { sessionId := "s1", filename := "B.pdf", chunkIndex := 1, position := 1,
    length := 1200, sentenceCount := 1, wordCount := 2 }

/-- A retrieved candidate with cosine distance exactly 0 whose chunk is at
position 0. -/
def candZero : Candidate := { text := "net lease", distance := 0, metadata := metaZero }

/-- Fallback record used only as the default of `List.getD`. -/
def scoredFallback : Scored :=
  { text := "", distance := 0, metadata := metaZero,
    scores := { semantic := 0, bm25 := 0, phrase := 0, position := 0, length := 0,
                combined := 0 },
    combinedScore := 0 }

/-- The reranker's output on the single candidate `candZero` (the empty
query has no token longer than 2 characters, so no RegExp is built). -/
def demoRR : List Scored := ((optimalReranking "" [candZero] 5).toOption).getD []

/-- The single scored chunk in `demoRR`. -/
def demoSc : Scored := demoRR.getD 0 scoredFallback

/-- A stored index record for `metaZero`. -/
def recDemo : UploadRecord :=
  { id := "s1_chunk_0", embedding := [], document := "net lease", metadata := metaZero }

/-! ## Helper lemmas: `mapExcept` -/

theorem mapExcept_cons_ok (f : α → Except ε β) (a : α) (as : List α) (l' : List β)
    (h : mapExcept f (a :: as) = .ok l') :
    ∃ b bs, f a = .ok b ∧ mapExcept f as = .ok bs ∧ l' = b :: bs := by
  unfold mapExcept at h
  cases hfa : f a with
  | error e => rw [hfa] at h; exact absurd h (by simp)
  | ok b =>
    rw [hfa] at h
    cases hrest : mapExcept f as with
    | error e => rw [hrest] at h; exact absurd h (by simp)
    | ok bs =>
      rw [hrest] at h
      exact ⟨b, bs, rfl, rfl, (Except.ok.inj h).symm⟩

theorem mapExcept_ok_length (f : α → Except ε β) :
    ∀ {l : List α} {l' : List β}, mapExcept f l = .ok l' → l'.length = l.length := by
  intro l
  induction l with
  | nil =>
    intro l' h
    simp only [mapExcept] at h
    obtain rfl := Except.ok.inj h
    rfl
  | cons a as ih =>
    intro l' h
    obtain ⟨b, bs, _, hrest, rfl⟩ := mapExcept_cons_ok f a as l' h
    simp [ih hrest]

theorem mapExcept_ok_mem (f : α → Except ε β) :
    ∀ {l : List α} {l' : List β}, mapExcept f l = .ok l' →
      ∀ y ∈ l', ∃ x ∈ l, f x = .ok y := by
  intro l
  induction l with
  | nil =>
    intro l' h
    simp only [mapExcept] at h
    obtain rfl := Except.ok.inj h
    intro y hy
    exact absurd hy (by simp)
  | cons a as ih =>
    intro l' h
    obtain ⟨b, bs, hfa, hrest, rfl⟩ := mapExcept_cons_ok f a as l' h
    intro y hy
    rcases List.mem_cons.mp hy with rfl | hy'
    · exact ⟨a, List.mem_cons_self a as, hfa⟩
    · obtain ⟨x, hx, hfx⟩ := ih hrest y hy'
      exact ⟨x, List.mem_cons_of_mem a hx, hfx⟩

theorem mapExcept_ok_of_all (f : α → Except ε β) :
    ∀ {l : List α}, (∀ x ∈ l, ∃ y, f x = .ok y) → ∃ l', mapExcept f l = .ok l' := by
  intro l
  induction l with
  | nil => intro _; exact ⟨[], rfl⟩
  | cons a as ih =>
    intro h
    obtain ⟨b, hb⟩ := h a (List.mem_cons_self a as)
    obtain ⟨bs, hbs⟩ := ih (fun x hx => h x (List.mem_cons_of_mem a hx))
    refine ⟨b :: bs, ?_⟩
    unfold mapExcept
    rw [hb, hbs]

/-! ## Helper lemmas: the stable descending sort -/

theorem insertDesc_perm (x : Scored) (l : List Scored) :
    List.Perm (insertDesc x l) (x :: l) := by
  induction l with
  | nil => exact List.Perm.refl _
  | cons y ys ih =>
    by_cases h : y.combinedScore ≤ x.combinedScore
    · simp only [insertDesc, if_pos h]
      exact List.Perm.refl _
    · simp only [insertDesc, if_neg h]
      exact (ih.cons y).trans (List.Perm.swap x y ys)

theorem sortByCombinedDesc_perm (l : List Scored) :
    List.Perm (sortByCombinedDesc l) l := by
  induction l with
  | nil => exact List.Perm.refl _
  | cons x xs ih => exact (insertDesc_perm x (sortByCombinedDesc xs)).trans (ih.cons x)

theorem pairwise_insertDesc (x : Scored) (l : List Scored)
    (h : l.Pairwise (fun a b => b.combinedScore ≤ a.combinedScore)) :
    (insertDesc x l).Pairwise (fun a b => b.combinedScore ≤ a.combinedScore) := by
  induction l with
  | nil => simp [insertDesc]
  | cons y ys ih =>
    rw [List.pairwise_cons] at h
    obtain ⟨hy, hys⟩ := h
    by_cases hxy : y.combinedScore ≤ x.combinedScore
    · simp only [insertDesc, if_pos hxy]
      rw [List.pairwise_cons]
      refine ⟨?_, ?_⟩
      · intro z hz
        rcases List.mem_cons.mp hz with rfl | hz'
        · exact hxy
        · exact le_trans (hy z hz') hxy
      · rw [List.pairwise_cons]
        exact ⟨hy, hys⟩
    · simp only [insertDesc, if_neg hxy]
      rw [List.pairwise_cons]
      refine ⟨?_, ih hys⟩
      intro z hz
      rcases List.mem_cons.mp ((insertDesc_perm x ys).mem_iff.mp hz) with rfl | hz'
      · exact le_of_lt (lt_of_not_le hxy)
      · exact hy z hz'

theorem pairwise_sortByCombinedDesc (l : List Scored) :
    (sortByCombinedDesc l).Pairwise (fun a b => b.combinedScore ≤ a.combinedScore) := by
  induction l with
  | nil => simp [sortByCombinedDesc]
  | cons x xs ih => exact pairwise_insertDesc x (sortByCombinedDesc xs) ih

theorem filter_insertDesc (s : ℚ) (x : Scored) (l : List Scored) :
    (insertDesc x l).filter (fun z => decide (z.combinedScore = s)) =
      if x.combinedScore = s then
        x :: l.filter (fun z => decide (z.combinedScore = s))
      else l.filter (fun z => decide (z.combinedScore = s)) := by
  induction l with
  | nil =>
    simp only [insertDesc, List.filter]
    by_cases hx : x.combinedScore = s
    · simp [hx]
    · simp [hx]
  | cons y ys ih =>
    by_cases hxy : y.combinedScore ≤ x.combinedScore
    · simp only [insertDesc, if_pos hxy]
      by_cases hx : x.combinedScore = s
      · simp [List.filter_cons, hx]
      · simp [List.filter_cons, hx]
    · have hlt : x.combinedScore < y.combinedScore := lt_of_not_le hxy
      simp only [insertDesc, if_neg hxy]
      by_cases hx : x.combinedScore = s
      · have hy : ¬(y.combinedScore = s) := by
          intro hc
          exact absurd (hx ▸ hc ▸ hlt) (lt_irrefl _)
        simp [List.filter_cons, hx, hy, ih]
      · by_cases hy : y.combinedScore = s
        · simp [List.filter_cons, hx, hy, ih]
        · simp [List.filter_cons, hx, hy, ih]

theorem filter_sortByCombinedDesc (s : ℚ) (l : List Scored) :
    (sortByCombinedDesc l).filter (fun z => decide (z.combinedScore = s)) =
      l.filter (fun z => decide (z.combinedScore = s)) := by
  induction l with
  | nil => rfl
  | cons x xs ih =>
    show (insertDesc x (sortByCombinedDesc xs)).filter _ = _
    rw [filter_insertDesc]
    by_cases hx : x.combinedScore = s
    · simp [List.filter_cons, hx, ih]
    · simp [List.filter_cons, hx, ih]

/-! ## Helper lemmas: reranker inversion -/

theorem optimalReranking_ok_elim (q : String) (cs : List Candidate) (k : Nat)
    (out : List Scored) (h : optimalReranking q cs k = .ok out) :
    ∃ scored, scoreAll q cs = .ok scored ∧
      out = (sortByCombinedDesc scored).take k := by
  unfold optimalReranking at h
  cases hs : scoreAll q cs with
  | error e => rw [hs] at h; exact absurd h (by simp)
  | ok scored =>
    rw [hs] at h
    exact ⟨scored, rfl, (Except.ok.inj h).symm⟩

theorem scoreChunk_ok_fields (qw qb qt : List String) (c : Candidate) (sc : Scored)
    (h : scoreChunk qw qb qt c = .ok sc) :
    sc.text = c.text ∧ sc.distance = c.distance ∧ sc.metadata = c.metadata ∧
    sc.scores.semantic = (if c.distance = 0 then 0 else (1 - c.distance) * 10) ∧
    sc.scores.position = (if c.metadata.position = 0 then 0
      else max 0 (3 - (c.metadata.position : ℚ) * 0.1)) ∧
    sc.scores.combined = sc.scores.semantic * 0.45 + sc.scores.bm25 * 0.30 +
      sc.scores.phrase * 0.15 + sc.scores.position * 0.05 + sc.scores.length * 0.05 ∧
    sc.combinedScore = sc.scores.combined := by
  simp only [scoreChunk] at h
  cases htfs : mapExcept (termTF (jsToLower c.text)) qw with
  | error e => rw [htfs] at h; exact absurd h (by simp)
  | ok tfs =>
    rw [htfs] at h
    obtain rfl := (Except.ok.inj h).symm
    refine ⟨rfl, rfl, rfl, rfl, rfl, rfl, rfl⟩

theorem optimalReranking_ok_mem (q : String) (cs : List Candidate) (k : Nat)
    (out : List Scored) (h : optimalReranking q cs k = .ok out) :
    ∀ sc ∈ out, ∃ c ∈ cs,
      scoreChunk (queryWordsOf q) (bigrams (queryWordsOf q)) (trigrams (queryWordsOf q))
        c = .ok sc := by
  intro sc hsc
  obtain ⟨scored, hs, rfl⟩ := optimalReranking_ok_elim q cs k out h
  have hmem1 : sc ∈ sortByCombinedDesc scored := List.take_subset k _ hsc
  have hmem2 : sc ∈ scored := (sortByCombinedDesc_perm scored).mem_iff.mp hmem1
  exact mapExcept_ok_mem _ hs sc hmem2

/-! ## Helper lemmas: BM25 monotonicity -/

theorem bm25OfTFs_foldl (docLength : Nat) :
    ∀ (tfs : List Nat) (a : ℚ),
      tfs.foldl (fun bm25Score tf => bm25Score + normalizedTF docLength tf * 2) a =
        a + (tfs.map (fun tf => normalizedTF docLength tf * 2)).sum := by
  intro tfs
  induction tfs with
  | nil => intro a; simp
  | cons t ts ih =>
    intro a
    simp only [List.foldl_cons, List.map_cons, List.sum_cons, ih]
    ring

theorem normalizedTF_mono (docLength tf1 tf2 : Nat) (h : tf1 ≤ tf2) :
    normalizedTF docLength tf1 ≤ normalizedTF docLength tf2 := by
  simp only [normalizedTF]
  have hd0 : (0 : ℚ) ≤ (docLength : ℚ) := Nat.cast_nonneg _
  have hdiv : (0 : ℚ) ≤ (docLength : ℚ) / 300 := by positivity
  have hC : (0 : ℚ) < 1.5 * (1 - 0.75 + 0.75 * ((docLength : ℚ) / 300)) := by nlinarith
  have h1 : (0 : ℚ) ≤ (tf1 : ℚ) := Nat.cast_nonneg _
  have h2 : (0 : ℚ) ≤ (tf2 : ℚ) := Nat.cast_nonneg _
  have h12 : (tf1 : ℚ) ≤ (tf2 : ℚ) := by exact_mod_cast h
  rw [div_le_div_iff₀ (by linarith) (by linarith)]
  nlinarith [mul_le_mul_of_nonneg_right h12 hC.le]

/-! ## Helper lemmas: the sessions aggregation -/

theorem find_map_pres (u : Session → Session) (hpres : ∀ s, (u s).sessionId = s.sessionId)
    (sid : String) (l : List Session) :
    (l.map u).find? (fun s => s.sessionId == sid) =
      (l.find? (fun s => s.sessionId == sid)).map u := by
  induction l with
  | nil => rfl
  | cons a l ih =>
    simp only [List.map_cons, List.find?_cons]
    by_cases ha : (a.sessionId == sid) = true
    · have hua : ((u a).sessionId == sid) = true := by rw [hpres]; exact ha
      simp [ha, hua]
    · have ha' : (a.sessionId == sid) = false := by
        cases hb : (a.sessionId == sid) with
        | true => exact absurd hb ha
        | false => rfl
      have hua : ((u a).sessionId == sid) = false := by rw [hpres]; exact ha'
      simp only [ha', hua]
      exact ih

theorem find_append_some (p : Session → Bool) (l1 l2 : List Session) (a : Session)
    (h : l1.find? p = some a) : (l1 ++ l2).find? p = some a := by
  induction l1 with
  | nil => exact absurd h (by simp)
  | cons x l ih =>
    by_cases hx : p x
    · rw [List.find?_cons_of_pos _ hx] at h
      rw [List.cons_append, List.find?_cons_of_pos _ hx]
      exact h
    · rw [List.find?_cons_of_neg _ hx] at h
      rw [List.cons_append, List.find?_cons_of_neg _ hx]
      exact ih h

theorem find_append_none (p : Session → Bool) (l1 l2 : List Session)
    (h : l1.find? p = none) : (l1 ++ l2).find? p = l2.find? p := by
  induction l1 with
  | nil => simp
  | cons x l ih =>
    by_cases hx : p x
    · rw [List.find?_cons_of_pos _ hx] at h; cases h
    · rw [List.find?_cons_of_neg _ hx] at h
      rw [List.cons_append, List.find?_cons_of_neg _ hx]
      exact ih h

theorem find_cons_of_true {α : Type} {p : α → Bool} {a : α} (l : List α)
    (h : p a = true) : (a :: l).find? p = some a := by
  rw [List.find?_cons, h]

theorem find_cons_of_false {α : Type} {p : α → Bool} {a : α} (l : List α)
    (h : p a = false) : (a :: l).find? p = l.find? p := by
  rw [List.find?_cons, h]

theorem filter_cons_of_true {α : Type} {p : α → Bool} {a : α} (l : List α)
    (h : p a = true) : (a :: l).filter p = a :: l.filter p := by
  simp [List.filter_cons, h]

theorem filter_cons_of_false {α : Type} {p : α → Bool} {a : α} (l : List α)
    (h : p a = false) : (a :: l).filter p = l.filter p := by
  simp [List.filter_cons, h]

/-- Characterisation of the `/sessions` fold: the entry found for a
non-empty `sid` after folding `metas` on top of `acc` is the `acc` entry
with the count of `sid`-matches in `metas` added, or — when `acc` has no
such entry — the record built from the FIRST `sid`-match in `metas` with
the total `sid`-match count. -/
theorem foldl_sessionsFold_find (sid : String) (hsid : sid ≠ "") :
    ∀ (metas : List Metadata) (acc : List Session),
      (metas.foldl sessionsFold acc).find? (fun s => s.sessionId == sid) =
        match acc.find? (fun s => s.sessionId == sid) with
        | some s => some { s with chunkCount :=
            s.chunkCount + (metas.filter (fun m => m.sessionId == sid)).length }
        | none => (metas.find? (fun m => m.sessionId == sid)).map
            (fun m => { sessionId := m.sessionId, filename := m.filename,
                        chunkCount := (metas.filter (fun m2 => m2.sessionId == sid)).length }) := by
  intro metas
  induction metas with
  | nil =>
    intro acc
    simp only [List.foldl_nil, List.filter_nil, List.length_nil, List.find?_nil,
      Option.map_none']
    cases h : acc.find? (fun s => s.sessionId == sid) with
    | none => rfl
    | some s => cases s; rfl
  | cons m rest ih =>
    intro acc
    rw [List.foldl_cons, ih (sessionsFold acc m)]
    by_cases hm0 : (m.sessionId == "") = true
    · -- the JS truthiness test skips this metadata entirely
      have hm0' : m.sessionId = "" := by simpa using hm0
      have hmsid : (m.sessionId == sid) = false := by
        rw [beq_eq_false_iff_ne, hm0']
        exact fun hc => hsid hc.symm
      have hfold : sessionsFold acc m = acc := by simp [sessionsFold, hm0]
      rw [hfold, find_cons_of_false rest hmsid, filter_cons_of_false rest hmsid]
    · by_cases hms : (m.sessionId == sid) = true
      · -- this metadata belongs to the requested session
        have hmeq : m.sessionId = sid := by simpa using hms
        rw [find_cons_of_true rest hms, filter_cons_of_true rest hms]
        cases hacc : acc.find? (fun s => s.sessionId == sid) with
        | some s =>
          -- an entry already exists: the fold increments its count in place
          have hps := List.find?_some hacc
          have hsm : (s.sessionId == m.sessionId) = true := by rw [hmeq]; exact hps
          have hany : acc.any (fun s' => s'.sessionId == m.sessionId) = true := by
            rw [List.any_eq_true]
            exact ⟨s, List.mem_of_find?_eq_some hacc, by rw [hmeq]; exact hps⟩
          have hfold : sessionsFold acc m = acc.map (fun s' =>
              if s'.sessionId == m.sessionId then
                { s' with chunkCount := s'.chunkCount + 1 }
              else s') := by
            simp [sessionsFold, hm0, hany]
          rw [hfold, find_map_pres _
            (fun s' => by by_cases hs : (s'.sessionId == m.sessionId) = true <;> simp [hs])
            sid acc, hacc, Option.map_some']
          simp only [hsm, if_true]
          cases s
          simp only [Option.some.injEq, Session.mk.injEq, List.length_cons, true_and]
          omega
        | none =>
          -- no entry yet: the fold appends a fresh record for this session
          have hany : acc.any (fun s' => s'.sessionId == m.sessionId) = false := by
            cases hb : acc.any (fun s' => s'.sessionId == m.sessionId) with
            | false => rfl
            | true =>
              rw [List.any_eq_true] at hb
              obtain ⟨s, hsmem, hsm⟩ := hb
              have hnone := List.find?_eq_none.mp hacc s hsmem
              rw [hmeq] at hsm
              exact absurd hsm hnone
          have hfold : sessionsFold acc m =
              acc ++ [{ sessionId := m.sessionId, filename := m.filename,
                        chunkCount := 1 }] := by
            simp [sessionsFold, hm0, hany]
          rw [hfold, find_append_none _ _ _ hacc]
          simp only [List.find?_cons, List.find?_nil, hms, Option.map_some',
            Option.some.injEq, Session.mk.injEq, List.length_cons, true_and]
          omega
      · -- a different (non-empty) session: the requested entry is untouched
        have hms' : (m.sessionId == sid) = false := by
          cases hb : (m.sessionId == sid) with
          | true => exact absurd hb hms
          | false => rfl
        rw [find_cons_of_false rest hms', filter_cons_of_false rest hms']
        have huntouched : (sessionsFold acc m).find? (fun s => s.sessionId == sid) =
            acc.find? (fun s => s.sessionId == sid) := by
          by_cases hany : acc.any (fun s' => s'.sessionId == m.sessionId) = true
          · have hfold : sessionsFold acc m = acc.map (fun s' =>
                if s'.sessionId == m.sessionId then
                  { s' with chunkCount := s'.chunkCount + 1 }
                else s') := by
              simp [sessionsFold, hm0, hany]
            rw [hfold, find_map_pres _
              (fun s' => by by_cases hs : (s'.sessionId == m.sessionId) = true <;> simp [hs])
              sid acc]
            cases hacc : acc.find? (fun s' => s'.sessionId == sid) with
            | none => rfl
            | some s =>
              have hps := List.find?_some hacc
              have hseq : s.sessionId = sid := by simpa using hps
              have hmne : m.sessionId ≠ sid := by
                rw [← beq_eq_false_iff_ne]
                exact hms'
              have hsm : (s.sessionId == m.sessionId) = false := by
                rw [beq_eq_false_iff_ne, hseq]
                exact fun hc => hmne hc.symm
              simp only [Option.map_some', hsm, Bool.false_eq_true, if_false]
          · have hany' : acc.any (fun s' => s'.sessionId == m.sessionId) = false := by
              cases hb : acc.any (fun s' => s'.sessionId == m.sessionId) with
              | true => exact absurd hb hany
              | false => rfl
            have hfold : sessionsFold acc m =
                acc ++ [{ sessionId := m.sessionId, filename := m.filename,
                          chunkCount := 1 }] := by
              simp [sessionsFold, hm0, hany']
            rw [hfold]
            cases hacc : acc.find? (fun s' => s'.sessionId == sid) with
            | some s => rw [find_append_some _ _ _ _ hacc]
            | none =>
              rw [find_append_none _ _ _ hacc]
              simp only [List.find?_cons, List.find?_nil, hms']
        rw [huntouched]


/-! ## Claim theorems -/

/-- C1: for every candidate scored by `optimalReranking`, the combined
score equals 0.45 times the semantic score plus 0.30 times the lexical
(bm25) score plus 0.15 times the phrase score plus 0.05 times the position
score plus 0.05 times the length score; the weights are fixed constants of
the definition, independent of the query, candidates and topK. -/
theorem rerank_combined_is_weighted_sum (q : String) (cs : List Candidate) (k : Nat)
    (out : List Scored) (h : optimalReranking q cs k = .ok out) :
    ∀ sc ∈ out, sc.scores.combined =
      0.45 * sc.scores.semantic + 0.30 * sc.scores.bm25 + 0.15 * sc.scores.phrase +
      0.05 * sc.scores.position + 0.05 * sc.scores.length := by
  intro sc hsc
  obtain ⟨c, _, hok⟩ := optimalReranking_ok_mem q cs k out h sc hsc
  obtain ⟨-, -, -, -, -, hcomb, -⟩ := scoreChunk_ok_fields _ _ _ _ _ hok
  rw [hcomb]
  ring

/-- Witness for C1 at the concrete input `("", [candZero], 5)`. -/
theorem rerank_combined_is_weighted_sum_witness :
    demoSc.scores.combined =
      0.45 * demoSc.scores.semantic + 0.30 * demoSc.scores.bm25 +
      0.15 * demoSc.scores.phrase + 0.05 * demoSc.scores.position +
      0.05 * demoSc.scores.length :=
  rerank_combined_is_weighted_sum "" [candZero] 5 demoRR rfl demoSc (List.Mem.head [])

/-- C2: `optimalReranking q cs k = ok out` yields exactly `min k |cs|`
scored chunks, sorted descending by combined score, and stably: for every
score value, the chunks of that combined score appear in `out` as a prefix
of their original (retrieval-order) sequence in the scored list — ties are
broken by first-seen retrieval order. -/
theorem rerank_topk_sorted_stable (q : String) (cs : List Candidate) (k : Nat)
    (out : List Scored) (h : optimalReranking q cs k = .ok out) :
    out.length = min k cs.length ∧
    out.Pairwise (fun a b => b.combinedScore ≤ a.combinedScore) ∧
    (∀ scored, scoreAll q cs = .ok scored → ∀ s : ℚ,
      out.filter (fun z => decide (z.combinedScore = s)) <+:
        scored.filter (fun z => decide (z.combinedScore = s))) := by
  obtain ⟨scored0, hs, rfl⟩ := optimalReranking_ok_elim q cs k out h
  refine ⟨?_, ?_, ?_⟩
  · rw [List.length_take, (sortByCombinedDesc_perm scored0).length_eq,
      mapExcept_ok_length _ hs]
  · exact (pairwise_sortByCombinedDesc scored0).sublist (List.take_sublist k _)
  · intro scored hseq s
    have heq : scored = scored0 := by
      rw [hs] at hseq
      exact (Except.ok.inj hseq).symm
    subst heq
    refine ⟨((sortByCombinedDesc scored).drop k).filter
      (fun z => decide (z.combinedScore = s)), ?_⟩
    rw [← List.filter_append, List.take_append_drop, filter_sortByCombinedDesc]

/-- Witness for C2 at the concrete input `("", [candZero], 5)`. -/
theorem rerank_topk_sorted_stable_witness : demoRR.length = min 5 1 :=
  (rerank_topk_sorted_stable "" [candZero] 5 demoRR rfl).1

/-- C3 counterexample: the candidate `candZero` has cosine distance 0, yet
the semantic score `optimalReranking` computes for it is 0, not
`(1 − 0) × 10 = 10` — the JS truthiness test `chunk.distance ? ... : 0`
takes the 0 branch on distance 0. -/
theorem semantic_zero_distance_counterexample :
    candZero.distance = 0 ∧
    (optimalReranking "" [candZero] 5).map (fun l => l.map (fun sc => sc.scores.semantic)) =
      .ok [0] ∧
    ((0 : ℚ) ≠ (1 - candZero.distance) * 10) :=
  ⟨rfl, rfl, by norm_num [candZero]⟩

/-- C3 amended: for every candidate with non-zero distance the semantic
score equals `(1 − distance) × 10`; a candidate with distance exactly 0
(falsy in JS) receives semantic score 0 instead of 10. -/
theorem rerank_semantic_truthiness (q : String) (cs : List Candidate) (k : Nat)
    (out : List Scored) (h : optimalReranking q cs k = .ok out) :
    ∀ sc ∈ out, sc.scores.semantic =
      if sc.distance = 0 then 0 else (1 - sc.distance) * 10 := by
  intro sc hsc
  obtain ⟨c, _, hok⟩ := optimalReranking_ok_mem q cs k out h sc hsc
  obtain ⟨-, hdist, -, hsem, -, -, -⟩ := scoreChunk_ok_fields _ _ _ _ _ hok
  rw [hsem, hdist]

/-- Witness for the amended C3 at the concrete input `("", [candZero], 5)`. -/
theorem rerank_semantic_truthiness_witness :
    demoSc.scores.semantic =
      if demoSc.distance = 0 then 0 else (1 - demoSc.distance) * 10 :=
  rerank_semantic_truthiness "" [candZero] 5 demoRR rfl demoSc (List.Mem.head [])

/-- C4 counterexample: the candidate `candZero` sits at chunk position 0,
yet the position score `optimalReranking` computes for it is 0, not
`max(0, 3 − 0.1×0) = 3` — the JS truthiness test
`chunk.metadata?.position ? ... : 0` takes the 0 branch on position 0. -/
theorem position_zero_counterexample :
    candZero.metadata.position = 0 ∧
    (optimalReranking "" [candZero] 5).map (fun l => l.map (fun sc => sc.scores.position)) =
      .ok [0] ∧
    ((0 : ℚ) ≠ 3) :=
  ⟨rfl, rfl, by norm_num⟩

/-- C4 amended: for every candidate at non-zero position the position
score equals `max(0, 3 − 0.1×position)`; a candidate at position exactly 0
(falsy in JS) receives position score 0 instead of 3. -/
theorem rerank_position_truthiness (q : String) (cs : List Candidate) (k : Nat)
    (out : List Scored) (h : optimalReranking q cs k = .ok out) :
    ∀ sc ∈ out, sc.scores.position =
      if sc.metadata.position = 0 then 0
      else max 0 (3 - (sc.metadata.position : ℚ) * 0.1) := by
  intro sc hsc
  obtain ⟨c, _, hok⟩ := optimalReranking_ok_mem q cs k out h sc hsc
  obtain ⟨-, -, hmeta, -, hpos, -, -⟩ := scoreChunk_ok_fields _ _ _ _ _ hok
  rw [hpos, hmeta]

/-- Witness for the amended C4 at the concrete input `("", [candZero], 5)`. -/
theorem rerank_position_truthiness_witness :
    demoSc.scores.position =
      if demoSc.metadata.position = 0 then 0
      else max 0 (3 - (demoSc.metadata.position : ℚ) * 0.1) :=
  rerank_position_truthiness "" [candZero] 5 demoRR rfl demoSc (List.Mem.head [])

/-- C5: the BM25-style normalised term frequency
`tf·(k1+1)/(tf + k1·(1 − b + b·(docLen/avgDocLen)))` with `k1 = 1.5`,
`b = 0.75`, `avgDocLen = 300` is monotone non-decreasing in `tf`, and so
increasing one query term's frequency while holding the candidate's word
count and all other terms fixed never decreases the bm25 score. -/
theorem bm25_monotone_in_tf (docLength tf1 tf2 : Nat) (pre post : List Nat)
    (h : tf1 ≤ tf2) :
    normalizedTF docLength tf1 ≤ normalizedTF docLength tf2 ∧
    bm25OfTFs docLength (pre ++ tf1 :: post) ≤ bm25OfTFs docLength (pre ++ tf2 :: post) := by
  have hmono := normalizedTF_mono docLength tf1 tf2 h
  refine ⟨hmono, ?_⟩
  unfold bm25OfTFs
  rw [bm25OfTFs_foldl, bm25OfTFs_foldl]
  simp only [List.map_append, List.sum_append, List.map_cons, List.sum_cons]
  have h2 : normalizedTF docLength tf1 * 2 ≤ normalizedTF docLength tf2 * 2 := by linarith
  linarith

/-- Witness for C5 at the concrete input `docLength = 300`, `tf = 1 ≤ 2`. -/
theorem bm25_monotone_in_tf_witness :
    (1 : Nat) ≤ 2 ∧
    (normalizedTF 300 1 ≤ normalizedTF 300 2 ∧
      bm25OfTFs 300 ([] ++ 1 :: []) ≤ bm25OfTFs 300 ([] ++ 2 :: [])) :=
  ⟨by decide, bm25_monotone_in_tf 300 1 2 [] [] (by decide)⟩

/-- C6: reranking an empty candidate list returns an empty list without an
error for every query and topK, and the ask endpoint on an empty retrieval
result returns the fixed "cannot find" answer with an empty sources list
instead of failing. -/
theorem rerank_empty_and_ask_fallback (q : String) (k : Nat)
    (generate : String → String → String) :
    optimalReranking q [] k = .ok [] ∧
    answerQuestion generate q [] = .ok { answer := cannotFindAnswer, sources := [] } := by
  constructor
  · unfold optimalReranking scoreAll
    simp [mapExcept, sortByCombinedDesc]
  · rfl

/-- C7: the upload handler never stores what the chunker produced — the
un-awaited `optimalChunkText` call leaves `chunks` a Promise, so the
response's `chunkCount` is `undefined` (`none`) and nothing is embedded or
added to the index, even though the chunker produces one chunk per
splitter segment. -/
theorem processUpload_ignores_chunker_output (splitter : String → List String)
    (embed : String → List ℚ) (sid fn text : String) :
    (processUpload splitter embed sid fn text).chunkCount = none ∧
    (processUpload splitter embed sid fn text).added = [] ∧
    (optimalChunkText splitter text).val.length = (splitter text).length := by
  refine ⟨rfl, rfl, ?_⟩
  simp [optimalChunkText]

/-- C8 counterexample: two stored chunks share sessionId "s1" but disagree
on filename ("A.pdf" vs "B.pdf"); `listSessions` silently resolves the
disagreement, returning one ordinary Session record carrying the
first-seen member's filename — no data-integrity violation is surfaced
(the result type has no error channel at all). -/
theorem listSessions_silent_filename_counterexample :
    metaZero.sessionId = metaB.sessionId ∧
    metaZero.filename ≠ metaB.filename ∧
    listSessions [metaZero, metaB] =
      [{ sessionId := "s1", filename := "A.pdf", chunkCount := 2 }] := by
  refine ⟨by decide, by decide, by decide⟩

/-- C8 amended: on a filename disagreement inside a session group,
`listSessions` does not surface an error; it silently emits one Session per
non-empty sessionId whose filename is the FIRST-seen member's filename and
whose chunkCount counts all members. -/
theorem listSessions_first_seen_filename (metas : List Metadata) (sid : String)
    (hsid : sid ≠ "") :
    (listSessions metas).find? (fun s => s.sessionId == sid) =
      (metas.find? (fun m => m.sessionId == sid)).map
        (fun m => { sessionId := m.sessionId, filename := m.filename,
                    chunkCount := (metas.filter (fun m2 => m2.sessionId == sid)).length }) := by
  have h := foldl_sessionsFold_find sid hsid metas []
  unfold listSessions
  rw [h]
  rfl

/-- Witness for the amended C8 at the concrete input `[metaZero, metaB]`,
`sid = "s1"`. -/
theorem listSessions_first_seen_filename_witness :
    (("s1" : String) ≠ "") ∧
    (listSessions [metaZero, metaB]).find? (fun s => s.sessionId == "s1") =
      ([metaZero, metaB].find? (fun m => m.sessionId == "s1")).map
        (fun m => { sessionId := m.sessionId, filename := m.filename,
                    chunkCount := ([metaZero, metaB].filter
                      (fun m2 => m2.sessionId == "s1")).length }) :=
  ⟨by decide, listSessions_first_seen_filename [metaZero, metaB] "s1" (by decide)⟩

/-- C9: `deleteSession` fails with NotFound (deleting nothing) when no
stored chunk's metadata matches the sessionId, and otherwise reports as
deleted exactly the number of matching chunks, with no matching chunk left
in the remaining index. -/
theorem deleteSession_spec (index : List UploadRecord) (sid : String) :
    ((index.filter (fun r => r.metadata.sessionId == sid)) = [] →
      deleteSession index sid = .error .notFound) ∧
    (∀ n rest, deleteSession index sid = .ok (n, rest) →
      n = (index.filter (fun r => r.metadata.sessionId == sid)).length ∧
      ∀ r ∈ rest, r.metadata.sessionId ≠ sid) := by
  constructor
  · intro h
    unfold deleteSession
    rw [h]
    rfl
  · intro n rest h
    unfold deleteSession at h
    by_cases hlen : 0 < ((index.filter (fun r => r.metadata.sessionId == sid)).map
        (fun r => r.id)).length
    · rw [if_pos hlen] at h
      obtain ⟨hn, hrest⟩ := Prod.mk.injEq .. ▸ Except.ok.inj h
      constructor
      · rw [← hn, List.length_map]
      · intro r hr
        rw [← hrest] at hr
        obtain ⟨hrmem, hrpass⟩ := List.mem_filter.mp hr
        intro hcontra
        have hrres : r ∈ index.filter (fun r' => r'.metadata.sessionId == sid) :=
          List.mem_filter.mpr ⟨hrmem, by rw [hcontra]; exact beq_self_eq_true sid⟩
        have hrid : ((index.filter (fun r' => r'.metadata.sessionId == sid)).map
            (fun r' => r'.id)).contains r.id = true := by
          rw [List.contains_eq_any_beq, List.any_eq_true]
          exact ⟨r.id, List.mem_map_of_mem _ hrres, beq_self_eq_true r.id⟩
        rw [hrid] at hrpass
        exact absurd hrpass (by decide)
    · rw [if_neg hlen] at h
      exact absurd h (by simp)

/-- Witness for C9: NotFound on an empty index, and exact count on a
one-record index. -/
theorem deleteSession_spec_witness :
    deleteSession [] "s1" = .error .notFound ∧
    (1 = ([recDemo].filter (fun r => r.metadata.sessionId == "s1")).length ∧
      ∀ r ∈ ([] : List UploadRecord), r.metadata.sessionId ≠ "s1") :=
  ⟨(deleteSession_spec [] "s1").1 rfl, (deleteSession_spec [recDemo] "s1").2 1 [] rfl⟩

/-- C10 counterexample: the query `"(((("` has a whitespace-delimited token
longer than 2 characters that ECMAScript rejects as RegExp syntax (an
unterminated group); on a non-empty candidate list `optimalReranking`
throws the RegExp SyntaxError instead of returning a result — rerank is
NOT total over all query strings. -/
theorem rerank_throws_on_invalid_regexp_token :
    optimalReranking "((((" [candZero] 5 = .error .syntaxError := rfl

/-- C10 amended: `optimalReranking` never throws provided every query
token longer than 2 characters is free of RegExp syntax characters (every
such token is a pattern `new RegExp` accepts and matches literally); with
a rejected token such as `"(((("` and a non-empty candidate list it
throws. -/
theorem rerank_ok_of_valid_tokens (q : String) (cs : List Candidate) (k : Nat)
    (h : ∀ w ∈ queryWordsOf q, jsRegexpPlain w = true) :
    ∃ out, optimalReranking q cs k = .ok out := by
  have hall : ∀ c ∈ cs, ∃ sc,
      scoreChunk (queryWordsOf q) (bigrams (queryWordsOf q)) (trigrams (queryWordsOf q)) c
        = .ok sc := by
    intro c _
    have htfs : ∃ tfs, mapExcept (termTF (jsToLower c.text)) (queryWordsOf q) = .ok tfs := by
      apply mapExcept_ok_of_all
      intro w hw
      refine ⟨countOccurrences w (jsToLower c.text), ?_⟩
      unfold termTF
      rw [if_pos (h w hw)]
    obtain ⟨tfs, htfs⟩ := htfs
    cases hsc : scoreChunk (queryWordsOf q) (bigrams (queryWordsOf q))
        (trigrams (queryWordsOf q)) c with
    | ok sc => exact ⟨sc, rfl⟩
    | error e =>
      exfalso
      simp only [scoreChunk] at hsc
      rw [htfs] at hsc
      exact absurd hsc (by simp)
  obtain ⟨scored, hsc⟩ := mapExcept_ok_of_all _ hall
  refine ⟨(sortByCombinedDesc scored).take k, ?_⟩
  unfold optimalReranking
  rw [show scoreAll q cs = .ok scored from hsc]

/-- Witness for the amended C10 at the concrete input
`("net lease term", [candZero], 5)`. -/
theorem rerank_ok_of_valid_tokens_witness :
    (∀ w ∈ queryWordsOf "net lease term", jsRegexpPlain w = true) ∧
    (∃ out, optimalReranking "net lease term" [candZero] 5 = .ok out) :=
  ⟨by decide, rerank_ok_of_valid_tokens "net lease term" [candZero] 5 (by decide)⟩

end LegalLens
